import Mathlib

/-!
Shallow embedding of the flashx reverse-proxy engine (src/flashx.go) and
proofs about its load-balancing, admission and bookkeeping behaviour.

Modelling conventions:
* The engine state is the subset of the Go `Engine` struct fields that the
  selection, validation and dispatch logic reads or writes.  The HTTP hooks,
  the rate limiter and the reverse-proxy object are external collaborators
  with no influence on the modelled state and are omitted.
* `currentIndex` is a Go `int64`; `atomic.AddInt64` wraps on overflow, so
  cursor arithmetic is modelled with two's-complement wrapping (`wrap64`).
  Go's `%` on `int64` is truncated remainder, modelled by `Int.tmod`.
* Connection counts are bounded by the number of in-flight requests and can
  never approach the `int64` range, so they are modelled as plain `Int`.
* A Go map is modelled as an association list (`Option` distinguishes a nil
  map from an initialised one); the nondeterministic iteration order of a
  `range` over a map is an explicit argument (`lcOrder`), constrained in the
  theorems to be a permutation of the map entries.
* Parsed URLs are pointers in Go (`*url.URL`); each successful `url.Parse`
  allocates a fresh pointer, so distinct configuration positions are distinct
  map keys even for equal URL strings.  The embedding is polymorphic in the
  URL type `υ` and the theorems that need pointer distinctness assume
  `Nodup`.  `url.Parse` itself is Go standard-library code, external to this
  repository, so it enters the model as a `parse : String → Option υ`
  parameter (`none` = parse error).
* Functions that can return a Go `error` or panic at runtime return a `Res`:
  `ok` (normal return), `err` (non-nil error returned), `panic` (runtime
  fault such as an out-of-range index, a modulo by zero, or a write to a nil
  map).
-/

namespace FlashX

/-- Two's-complement wrapping of an unbounded integer into the `int64` range,
modelling Go `int64` overflow. -/
def wrap64 (x : Int) : Int :=
  (x + 9223372036854775808) % 18446744073709551616 - 9223372036854775808

/-- Model of `atomic.AddInt64(&c, d)`: the returned (and stored) new value. -/
def addInt64 (c d : Int) : Int :=
  wrap64 (c + d)

/-- Outcome of running a Go function that can return an error or panic,
together with the engine state at that point. -/
inductive Res (σ : Type) where
  | ok (s : σ)
  | err (s : σ)
  | panic (s : σ)
deriving DecidableEq

/-- True when the outcome is a runtime panic. -/
def Res.isPanic {σ : Type} : Res σ → Bool
  | .panic _ => true
  | _ => false

/-- The modelled fields of the Go `Engine` struct (src/flashx.go lines
19-94).  Exported configuration fields keep their Go names; the unexported
fields `currentIndex`, `urls`, `weightedURLs` and `leastConnectionMap` are
the mutable/derived state. -/
structure Engine (υ : Type) where
  BlacklistIPs : List String
  URLs : List String
  LoadBalancingStrategy : Nat
  RoundRobinWeights : List Int
  currentIndex : Int
  urls : List υ
  weightedURLs : List υ
  leastConnectionMap : Option (List (υ × Int))
deriving DecidableEq

/-- Go constant `Nil` (iota 0): no load-balancing strategy. -/
def Nil : Nat := 0

/-- Go constant `RoundRobin` (iota 1). -/
def RoundRobin : Nat := 1

/-- Go constant `WeightedRoundRobin` (iota 2). -/
def WeightedRoundRobin : Nat := 2

/-- Go constant `LeastConnections` (iota 3). -/
def LeastConnections : Nat := 3

/-- Lookup in a Go map modelled as an association list; a missing key reads
the zero value, as in Go. -/
def mapGet {υ : Type} [DecidableEq υ] : List (υ × Int) → υ → Int
  | [], _ => 0
  | (k', v) :: rest, k => if k' = k then v else mapGet rest k

/-- Store into a Go map modelled as an association list (update in place or
insert at the end). -/
def mapSet {υ : Type} [DecidableEq υ] : List (υ × Int) → υ → Int → List (υ × Int)
  | [], k, v => [(k, v)]
  | (k', v') :: rest, k, v =>
    if k' = k then (k', v) :: rest else (k', v') :: mapSet rest k v

/-- Model of Go `m[k] += d` (also `m[k]++` / `m[k]--`) on an initialised
map: read the current value (zero when absent) and store the sum. -/
def mapAdd {υ : Type} [DecidableEq υ] (m : List (υ × Int)) (k : υ) (d : Int) :
    List (υ × Int) :=
  mapSet m k (mapGet m k + d)

/-- The parsing loop of `validateURLs` (src/flashx.go lines 187-194): parse
every configured URL string, failing on the first error. -/
def parseAll {υ : Type} (parse : String → Option υ) : List String → Option (List υ)
  | [] => some []
  | s :: rest =>
    match parse s with
    | none => none
    | some u =>
      match parseAll parse rest with
      | none => none
      | some us => some (u :: us)

/-- The weighted-expansion loop of `validateURLs` (src/flashx.go lines
199-204): for the backend at position `idx` read `ws[idx]` (a Go index
expression — `none` models the index-out-of-range panic when the weight list
is shorter than the URL list) and append that many copies.  A non-positive
weight appends no copies, as the Go `for j < weight` loop does. -/
def expandWeightedFrom {υ : Type} (ws : List Int) : List υ → Nat → Option (List υ)
  | [], _ => some []
  | u :: rest, idx =>
    match ws[idx]? with
    | none => none
    | some w =>
      match expandWeightedFrom ws rest (idx + 1) with
      | none => none
      | some tail => some (List.replicate w.toNat u ++ tail)

/-- Model of `Engine.validateURLs` (src/flashx.go lines 186-207).  On a
parse error the function returns the error with `e.urls` untouched; on
success it stores the parsed list and, when `RoundRobinWeights` is
non-empty, the weighted expansion (whose partial state at an
index-out-of-range panic is irrelevant, since the panic aborts setup). -/
def validateURLs {υ : Type} (parse : String → Option υ) (e : Engine υ) :
    Res (Engine υ) :=
  match parseAll parse e.URLs with
  | none => Res.err e
  | some parsedURLs =>
    let e1 := { e with urls := parsedURLs }
    if e1.RoundRobinWeights.length > 0 then
      match expandWeightedFrom e1.RoundRobinWeights e1.urls 0 with
      | none => Res.panic e1
      | some ws => Res.ok { e1 with weightedURLs := ws }
    else
      Res.ok e1

/-- Model of `Engine.populateLeastConnectionsMap` (src/flashx.go lines
209-214): a fresh map with every parsed URL mapped to 0. -/
def populateLeastConnectionsMap {υ : Type} [DecidableEq υ] (e : Engine υ) :
    Engine υ :=
  { e with leastConnectionMap := some (e.urls.foldl (fun m u => mapSet m u 0) []) }

/-- Model of `Engine.Setup` (src/flashx.go lines 121-138).  The rate-limiter
construction is external state with no influence on the modelled fields. -/
def Setup {υ : Type} [DecidableEq υ] (parse : String → Option υ) (e : Engine υ) :
    Res (Engine υ) :=
  let e0 := { e with currentIndex := -1 }
  match validateURLs parse e0 with
  | Res.err s => Res.err s
  | Res.panic s => Res.panic s
  | Res.ok s =>
    if s.LoadBalancingStrategy = LeastConnections then
      Res.ok (populateLeastConnectionsMap s)
    else
      Res.ok s

/-- Go slice indexing `xs[i]` with an `int` index: panics (`none`) unless
`0 ≤ i < len(xs)`. -/
def goIndex {υ : Type} (xs : List υ) (i : Int) : Option υ :=
  if h : 0 ≤ i ∧ i.toNat < xs.length then some (xs.get ⟨i.toNat, h.2⟩) else none

/-- The cursor-indexing expression of `getURL`:
`xs[int(c % int64(len(xs)))]`.  A zero-length slice is a modulo-by-zero
panic; Go's `%` is the truncated remainder `Int.tmod`, which is negative for
a negative cursor and then panics in `goIndex`. -/
def goModIndex {υ : Type} (xs : List υ) (c : Int) : Option υ :=
  if xs.length = 0 then none
  else goIndex xs (Int.tmod c (xs.length : Int))

/-- The scan loop of the LeastConnections branch of `getURL` (src/flashx.go
lines 230-235), folded over the map entries in iteration order with the
running minimum `least` (initially the literal 9999999999) and current best
URL (initially `e.urls[0]`). -/
def scanLC {υ : Type} : List (υ × Int) → Int → υ → υ
  | [], _, best => best
  | (k, v) :: rest, least, best =>
    if v < least then scanLC rest v k else scanLC rest least best

/-- Model of `Engine.getURL` (src/flashx.go lines 216-240).  Returns the
selected URL (`none` = runtime panic) and the new `currentIndex` (the
RoundRobin branches store the incremented cursor even when the subsequent
indexing panics).  `lcOrder` is the iteration order of the
`leastConnectionMap` taken by the `range` loop; a nil map iterates zero
times. -/
def getURL {υ : Type} (e : Engine υ) (lcOrder : List (υ × Int)) :
    Option υ × Int :=
  if e.LoadBalancingStrategy = RoundRobin then
    (goModIndex e.urls (addInt64 e.currentIndex 1), addInt64 e.currentIndex 1)
  else if e.LoadBalancingStrategy = WeightedRoundRobin then
    (goModIndex e.weightedURLs (addInt64 e.currentIndex 1),
      addInt64 e.currentIndex 1)
  else if e.LoadBalancingStrategy = LeastConnections then
    (match e.urls with
      | [] => none
      | u :: _ => some (scanLC lcOrder 9999999999 u),
      e.currentIndex)
  else
    (e.urls.head?, e.currentIndex)

/-- Model of `Engine.blacklist` (src/flashx.go lines 242-251) reduced to its
observable effect: whether a 403 status is written, i.e. whether the remote
address is string-equal to some blacklist entry. -/
def blacklist {υ : Type} (e : Engine υ) (remoteAddr : String) : Bool :=
  if e.BlacklistIPs.length > 0 then
    e.BlacklistIPs.any (fun ip => ip = remoteAddr)
  else
    false

/-- Behaviour of the external forwarding call `revProxy.ServeHTTP`:
`returns` covers a normal return (success, or an error consumed by the
error handler); `faults` is a panic raised during forwarding. -/
inductive FwdBehavior where
  | returns
  | faults
deriving DecidableEq

/-- Observable result of one `Initiate` dispatch: the final outcome (with
the engine state), the URL selected by `getURL`, whether a 403 status was
written, and whether the reverse proxy was invoked. -/
structure InitResult (υ : Type) where
  outcome : Res (Engine υ)
  selected : Option υ
  wrote403 : Bool
  forwarded : Bool
deriving DecidableEq

/-- Model of `Engine.Initiate` (src/flashx.go lines 144-164), step by step:
`getURL` (panic propagates), the rate-limiter `Take` (external, no modelled
effect), `leastConnectionMap[routeURL]++` (a write that panics on a nil
map), `blacklist` (writes the 403 status but does not stop the function),
`ServeHTTP` (external; `fwd` says whether it returns or panics), and —
only on the return path, there is no `defer` — `leastConnectionMap[routeURL]--`. -/
def Initiate {υ : Type} [DecidableEq υ] (e : Engine υ)
    (lcOrder : List (υ × Int)) (remoteAddr : String) (fwd : FwdBehavior) :
    InitResult υ :=
  match getURL e lcOrder with
  | (none, ni) =>
    { outcome := Res.panic { e with currentIndex := ni },
      selected := none, wrote403 := false, forwarded := false }
  | (some routeURL, ni) =>
    let e1 := { e with currentIndex := ni }
    match e1.leastConnectionMap with
    | none =>
      { outcome := Res.panic e1,
        selected := some routeURL, wrote403 := false, forwarded := false }
    | some m =>
      let e2 := { e1 with leastConnectionMap := some (mapAdd m routeURL 1) }
      let w403 := blacklist e2 remoteAddr
      match fwd with
      | FwdBehavior.faults =>
        { outcome := Res.panic e2,
          selected := some routeURL, wrote403 := w403, forwarded := true }
      | FwdBehavior.returns =>
        let m3 := mapAdd (mapAdd m routeURL 1) routeURL (-1)
        let e3 := { e2 with leastConnectionMap := some m3 }
        { outcome := Res.ok e3,
          selected := some routeURL, wrote403 := w403, forwarded := true }

/-- One selection step as `Initiate` performs it: run `getURL` and store the
returned cursor back into the engine. -/
def stepSelect {υ : Type} (ord : List (υ × Int)) (e : Engine υ) :
    Option υ × Engine υ :=
  ((getURL e ord).1, { e with currentIndex := (getURL e ord).2 })

/-- The engine after `k` selection steps. -/
def iterSelect {υ : Type} (ord : List (υ × Int)) (e : Engine υ) : Nat → Engine υ
  | 0 => e
  | k + 1 => (stepSelect ord (iterSelect ord e k)).2

/-- The URL returned by the `k`-th selection (1-indexed) in a sequential run
of selections starting from `e`. -/
def selectionAt {υ : Type} (e : Engine υ) (ord : List (υ × Int)) (k : Nat) :
    Option υ :=
  (stepSelect ord (iterSelect ord e (k - 1))).1

/-- The list of the first `n` selections (in order) of a sequential run. -/
def selList {υ : Type} (e : Engine υ) (ord : List (υ × Int)) (n : Nat) :
    List (Option υ) :=
  (List.range n).map (fun j => selectionAt e ord (j + 1))

/-- Toy parse function used to instantiate the `parse` parameter in
witnesses: a URL string containing a space fails to parse (Go's `url.Parse`
rejects `" http://foo.com"`, the malformed example in the repository's own
tests), everything else parses to itself. -/
def specParse (s : String) : Option String :=
  if s.data.contains ' ' then none else some s

example : specParse " http://foo.com" = none := by decide
example : specParse "http://a" = some "http://a" := by decide

/-! ### Arithmetic and indexing lemmas -/

theorem wrap64_eq_self {x : Int} (h1 : -9223372036854775808 ≤ x)
    (h2 : x < 9223372036854775808) : wrap64 x = x := by
  unfold wrap64
  omega

theorem wrap64_wrap_add (x y : Int) : wrap64 (wrap64 x + y) = wrap64 (x + y) := by
  unfold wrap64
  omega

theorem goModIndex_natCast {υ : Type} (xs : List υ) (n : Nat) (hne : xs ≠ []) :
    goModIndex xs (n : Int) = xs[n % xs.length]? := by
  have hlen : 0 < xs.length := List.length_pos.mpr hne
  have hmod : n % xs.length < xs.length := Nat.mod_lt n hlen
  have htm : Int.tmod (n : Int) ((xs.length : Nat) : Int) =
      ((n % xs.length : Nat) : Int) := by
    rw [Int.tmod_eq_emod (Int.natCast_nonneg n) (Int.natCast_nonneg xs.length)]
    exact (Int.ofNat_emod n xs.length).symm
  unfold goModIndex goIndex
  rw [if_neg (by omega), htm]
  rw [dif_pos ⟨Int.natCast_nonneg _, by simpa using hmod⟩]
  rw [List.getElem?_eq_getElem hmod]
  simp only [List.get_eq_getElem, Int.toNat_ofNat]

/-! ### Selection-run lemmas -/

theorem getURL_snd_cursor {υ : Type} (e : Engine υ) (ord : List (υ × Int))
    (hs : e.LoadBalancingStrategy = RoundRobin ∨
      e.LoadBalancingStrategy = WeightedRoundRobin) :
    (getURL e ord).2 = addInt64 e.currentIndex 1 := by
  rcases hs with h | h <;>
    simp [getURL, h, RoundRobin, WeightedRoundRobin]

theorem getURL_fst_rr {υ : Type} (e : Engine υ) (ord : List (υ × Int))
    (hs : e.LoadBalancingStrategy = RoundRobin) :
    (getURL e ord).1 = goModIndex e.urls (addInt64 e.currentIndex 1) := by
  simp [getURL, hs, RoundRobin]

theorem getURL_fst_wrr {υ : Type} (e : Engine υ) (ord : List (υ × Int))
    (hs : e.LoadBalancingStrategy = WeightedRoundRobin) :
    (getURL e ord).1 = goModIndex e.weightedURLs (addInt64 e.currentIndex 1) := by
  simp [getURL, hs, RoundRobin, WeightedRoundRobin]

theorem iterSelect_urls {υ : Type} (ord : List (υ × Int)) (e : Engine υ) :
    ∀ k, (iterSelect ord e k).urls = e.urls := by
  intro k
  induction k with
  | zero => rfl
  | succ k ih => simp [iterSelect, stepSelect, ih]

theorem iterSelect_weightedURLs {υ : Type} (ord : List (υ × Int)) (e : Engine υ) :
    ∀ k, (iterSelect ord e k).weightedURLs = e.weightedURLs := by
  intro k
  induction k with
  | zero => rfl
  | succ k ih => simp [iterSelect, stepSelect, ih]

theorem iterSelect_strategy {υ : Type} (ord : List (υ × Int)) (e : Engine υ) :
    ∀ k, (iterSelect ord e k).LoadBalancingStrategy = e.LoadBalancingStrategy := by
  intro k
  induction k with
  | zero => rfl
  | succ k ih => simp [iterSelect, stepSelect, ih]

theorem iterSelect_cursor {υ : Type} (ord : List (υ × Int)) (e : Engine υ)
    (hs : e.LoadBalancingStrategy = RoundRobin ∨
      e.LoadBalancingStrategy = WeightedRoundRobin)
    (hc : wrap64 e.currentIndex = e.currentIndex) :
    ∀ k, (iterSelect ord e k).currentIndex = wrap64 (e.currentIndex + k) := by
  intro k
  induction k with
  | zero => simpa using hc.symm
  | succ k ih =>
    have hs' : (iterSelect ord e k).LoadBalancingStrategy = RoundRobin ∨
        (iterSelect ord e k).LoadBalancingStrategy = WeightedRoundRobin := by
      rw [iterSelect_strategy]
      exact hs
    have hstep := getURL_snd_cursor (iterSelect ord e k) ord hs'
    simp only [iterSelect, stepSelect]
    rw [hstep, ih]
    unfold addInt64
    rw [wrap64_wrap_add]
    congr 1
    push_cast
    ring

theorem selectionAt_rr {υ : Type} (e : Engine υ) (ord : List (υ × Int))
    (hs : e.LoadBalancingStrategy = RoundRobin)
    (hc : e.currentIndex = -1) (hne : e.urls ≠ [])
    (k : Nat) (hk1 : 1 ≤ k) (hk2 : k ≤ 9223372036854775808) :
    selectionAt e ord k = e.urls[(k - 1) % e.urls.length]? := by
  have hcur : (iterSelect ord e (k - 1)).currentIndex = wrap64 (-1 + (k - 1 : Nat)) := by
    rw [iterSelect_cursor ord e (Or.inl hs) (by rw [hc]; decide) (k - 1), hc]
  have hs' : (iterSelect ord e (k - 1)).LoadBalancingStrategy = RoundRobin := by
    rw [iterSelect_strategy]
    exact hs
  unfold selectionAt stepSelect
  rw [getURL_fst_rr _ ord hs', iterSelect_urls, hcur]
  unfold addInt64
  rw [wrap64_wrap_add]
  have harg : (-1 + ((k - 1 : Nat) : Int) + 1) = ((k - 1 : Nat) : Int) := by ring
  rw [harg, wrap64_eq_self (by omega) (by omega)]
  exact goModIndex_natCast e.urls (k - 1) hne

theorem selectionAt_wrr {υ : Type} (e : Engine υ) (ord : List (υ × Int))
    (hs : e.LoadBalancingStrategy = WeightedRoundRobin)
    (hc : e.currentIndex = -1) (hne : e.weightedURLs ≠ [])
    (k : Nat) (hk1 : 1 ≤ k) (hk2 : k ≤ 9223372036854775808) :
    selectionAt e ord k = e.weightedURLs[(k - 1) % e.weightedURLs.length]? := by
  have hcur : (iterSelect ord e (k - 1)).currentIndex = wrap64 (-1 + (k - 1 : Nat)) := by
    rw [iterSelect_cursor ord e (Or.inr hs) (by rw [hc]; decide) (k - 1), hc]
  have hs' : (iterSelect ord e (k - 1)).LoadBalancingStrategy = WeightedRoundRobin := by
    rw [iterSelect_strategy]
    exact hs
  unfold selectionAt stepSelect
  rw [getURL_fst_wrr _ ord hs', iterSelect_weightedURLs, hcur]
  unfold addInt64
  rw [wrap64_wrap_add]
  have harg : (-1 + ((k - 1 : Nat) : Int) + 1) = ((k - 1 : Nat) : Int) := by ring
  rw [harg, wrap64_eq_self (by omega) (by omega)]
  exact goModIndex_natCast e.weightedURLs (k - 1) hne

theorem selectionAt_rr_closed {υ : Type} (e : Engine υ) (ord : List (υ × Int))
    (hs : e.LoadBalancingStrategy = RoundRobin)
    (hc : e.currentIndex = -1) (k : Nat) :
    selectionAt e ord k = goModIndex e.urls (wrap64 ((k - 1 : Nat) : Int)) := by
  have hcur : (iterSelect ord e (k - 1)).currentIndex = wrap64 (-1 + (k - 1 : Nat)) := by
    rw [iterSelect_cursor ord e (Or.inl hs) (by rw [hc]; decide) (k - 1), hc]
  have hst : (iterSelect ord e (k - 1)).LoadBalancingStrategy = RoundRobin := by
    rw [iterSelect_strategy]
    exact hs
  unfold selectionAt stepSelect
  rw [getURL_fst_rr _ ord hst, iterSelect_urls, hcur]
  unfold addInt64
  rw [wrap64_wrap_add]
  have harg : (-1 + ((k - 1 : Nat) : Int) + 1) = ((k - 1 : Nat) : Int) := by ring
  rw [harg]

/-! ### Setup and validateURLs structural lemmas -/

theorem validateURLs_ok_shape {υ : Type} (parse : String → Option υ)
    (e e' : Engine υ) (h : validateURLs parse e = Res.ok e') :
    ∃ us, parseAll parse e.URLs = some us ∧
      e'.currentIndex = e.currentIndex ∧
      e'.LoadBalancingStrategy = e.LoadBalancingStrategy ∧
      e'.BlacklistIPs = e.BlacklistIPs ∧
      e'.leastConnectionMap = e.leastConnectionMap ∧
      e'.RoundRobinWeights = e.RoundRobinWeights ∧
      e'.urls = us := by
  unfold validateURLs at h
  dsimp only at h
  split at h
  · exact absurd h (by simp)
  · next us heq =>
    refine ⟨us, heq, ?_⟩
    split at h
    · split at h
      · exact absurd h (by simp)
      · injection h with h'
        subst h'
        simp
    · injection h with h'
      subst h'
      simp

theorem Setup_ok_shape {υ : Type} [DecidableEq υ] (parse : String → Option υ)
    (e e' : Engine υ) (h : Setup parse e = Res.ok e') :
    e'.currentIndex = -1 ∧
    e'.LoadBalancingStrategy = e.LoadBalancingStrategy ∧
    e'.BlacklistIPs = e.BlacklistIPs := by
  unfold Setup at h
  dsimp only at h
  split at h
  · exact absurd h (by simp)
  · exact absurd h (by simp)
  · next s heq =>
    obtain ⟨us, _, hci, hlb, hbl, _, _, _⟩ := validateURLs_ok_shape parse _ s heq
    split at h <;>
      · injection h with h'
        subst h'
        simp_all [populateLeastConnectionsMap]

theorem Setup_ok_map_none {υ : Type} [DecidableEq υ] (parse : String → Option υ)
    (e e' : Engine υ) (h : Setup parse e = Res.ok e')
    (hm : e.leastConnectionMap = none)
    (hs : e.LoadBalancingStrategy ≠ LeastConnections) :
    e'.leastConnectionMap = none := by
  unfold Setup at h
  dsimp only at h
  split at h
  · exact absurd h (by simp)
  · exact absurd h (by simp)
  · next s heq =>
    obtain ⟨us, _, hci, hlb, hbl, hmap, _, _⟩ := validateURLs_ok_shape parse _ s heq
    split at h
    · next hlc =>
      rw [hlb] at hlc
      exact absurd hlc hs
    · injection h with h'
      subst h'
      rw [hmap, hm]

/-! ### Concrete configurations used by counterexamples, code-bug evaluations
and witnesses -/

/-- Fresh user-built engine: three backends, RoundRobin. -/
def c1Config : Engine String :=
  { BlacklistIPs := [], URLs := ["http://a", "http://b", "http://c"],
    LoadBalancingStrategy := RoundRobin, RoundRobinWeights := [],
    currentIndex := 0, urls := [], weightedURLs := [], leastConnectionMap := none }

/-- The engine state `Setup` produces from `c1Config`. -/
def c1Engine : Engine String :=
  { c1Config with currentIndex := -1, urls := ["http://a", "http://b", "http://c"] }

/-- C1 (counterexample): the claim promises `BackendSet[(k-1) mod N]` for
every `k ≥ 1`, but `currentIndex` is a Go `int64`: on selection number
`2^63 + 1` from a fresh engine the atomic increment overflows to `-2^63`,
Go's truncated `%` turns negative, and the slice index panics — no backend
is returned at all (`(2^63) mod 3 = 2`, so the claim demands
`BackendSet[2]`). -/
theorem c1_counterexample_wraparound :
    Setup specParse c1Config = Res.ok c1Engine ∧
    selectionAt c1Engine [] 9223372036854775809 = none ∧
    (c1Engine.urls[(9223372036854775809 - 1) % c1Engine.urls.length]?).isSome = true := by
  refine ⟨by decide, ?_, by decide⟩
  rw [selectionAt_rr_closed c1Engine [] (by decide) (by decide) 9223372036854775809]
  decide

/-- C1 (amended): starting from a fresh `Setup` under RoundRobin, for every
`1 ≤ k ≤ 2^63` the `k`-th selection returns `BackendSet[(k-1) mod N]`; the
sequence is deterministic and covers every backend once per `N` calls in
configuration order.  (Beyond `2^63` calls the `int64` cursor overflows and
the selection panics, see the counterexample.) -/
theorem c1_roundrobin_kth_selection {υ : Type} [DecidableEq υ]
    (parse : String → Option υ) (e e' : Engine υ)
    (hs : e.LoadBalancingStrategy = RoundRobin)
    (hset : Setup parse e = Res.ok e')
    (hne : e'.urls ≠ [])
    (k : Nat) (hk1 : 1 ≤ k) (hk2 : k ≤ 9223372036854775808) :
    selectionAt e' [] k = e'.urls[(k - 1) % e'.urls.length]? := by
  obtain ⟨hci, hlb, _⟩ := Setup_ok_shape parse e e' hset
  exact selectionAt_rr e' [] (by rw [hlb]; exact hs) hci hne k hk1 hk2

/-- Witness for C1's amended theorem at a concrete engine: the fifth
selection from a fresh three-backend engine is backend `(5-1) mod 3 = 1`. -/
theorem c1_roundrobin_kth_selection_witness :
    Setup specParse c1Config = Res.ok c1Engine ∧
    selectionAt c1Engine [] 5 = c1Engine.urls[(5 - 1) % c1Engine.urls.length]? ∧
    selectionAt c1Engine [] 5 = some "http://b" :=
  ⟨by decide,
    c1_roundrobin_kth_selection specParse c1Config c1Engine (by decide) (by decide)
      (by decide) 5 (by decide) (by decide),
    by decide⟩

/-- Fresh user-built engine: two backends, WeightedRoundRobin, one weight. -/
def c4Config : Engine String :=
  { BlacklistIPs := [], URLs := ["http://a", "http://b"],
    LoadBalancingStrategy := WeightedRoundRobin, RoundRobinWeights := [1],
    currentIndex := 0, urls := [], weightedURLs := [], leastConnectionMap := none }

/-- C4 (code bug): the spec and the repository's own tests demand a
`WeightMismatch` setup error unless there is exactly one weight ≥ 1 per
address, but `validateURLs` performs no such check: with two addresses and
weights `[1]` the expansion loop reads `RoundRobinWeights[1]` and panics
(index out of range) instead of returning an error; with three weights for
two addresses, or with a zero weight, `Setup` silently succeeds (the zero
weight silently drops the backend from `WeightedBackendSet`). -/
theorem c4_weight_mismatch_panics_not_error :
    (Setup specParse c4Config).isPanic = true ∧
    Setup specParse c4Config =
      Res.panic { c4Config with currentIndex := -1, urls := ["http://a", "http://b"] } ∧
    Setup specParse { c4Config with RoundRobinWeights := [1, 1, 1] } =
      Res.ok { c4Config with
          RoundRobinWeights := [1, 1, 1]
          currentIndex := -1
          urls := ["http://a", "http://b"]
          weightedURLs := ["http://a", "http://b"] } ∧
    Setup specParse { c4Config with RoundRobinWeights := [0, 1] } =
      Res.ok { c4Config with
          RoundRobinWeights := [0, 1]
          currentIndex := -1
          urls := ["http://a", "http://b"]
          weightedURLs := ["http://b"] } := by
  decide

/-- Fresh user-built engine: RoundRobin selected but zero backends. -/
def c5Config : Engine String :=
  { BlacklistIPs := [], URLs := [], LoadBalancingStrategy := RoundRobin,
    RoundRobinWeights := [], currentIndex := 0, urls := [], weightedURLs := [],
    leastConnectionMap := none }

/-- C5 (code bug): the spec and the repository's own tests demand a
`NoBackends` setup error when a strategy is selected with zero addresses,
but `Setup` performs no such check and succeeds; the configured engine then
panics on the first selection (modulo by zero on the empty backend list). -/
theorem c5_no_backends_setup_succeeds :
    Setup specParse c5Config = Res.ok { c5Config with currentIndex := -1 } ∧
    (getURL { c5Config with currentIndex := -1 } []).1 = none := by
  decide

/-- Fresh user-built engine: one backend, LeastConnections, one blacklisted
address. -/
def c3Config : Engine String :=
  { BlacklistIPs := ["192.168.1.7"], URLs := ["http://a"],
    LoadBalancingStrategy := LeastConnections, RoundRobinWeights := [],
    currentIndex := 0, urls := [], weightedURLs := [], leastConnectionMap := none }

/-- The engine state `Setup` produces from `c3Config`. -/
def c3Engine : Engine String :=
  { c3Config with
      currentIndex := -1
      urls := ["http://a"]
      leastConnectionMap := some [("http://a", 0)] }

/-- C3 (code bug): for a blacklisted remote address `Initiate` writes the
403 status but does not return — `blacklist` cannot make its caller return,
so `Initiate` still constructs the reverse proxy and serves (forwards) the
request.  The admitted half of the claim holds: a non-matching remote
address (including a proper prefix of a blacklisted one) gets no 403, and
matching is exact string equality. -/
theorem c3_blacklisted_request_still_forwarded :
    Setup specParse c3Config = Res.ok c3Engine ∧
    (Initiate c3Engine [("http://a", 0)] "192.168.1.7" FwdBehavior.returns).wrote403 = true ∧
    (Initiate c3Engine [("http://a", 0)] "192.168.1.7" FwdBehavior.returns).forwarded = true ∧
    (Initiate c3Engine [("http://a", 0)] "10.0.0.5" FwdBehavior.returns).wrote403 = false ∧
    (Initiate c3Engine [("http://a", 0)] "192.168.1." FwdBehavior.returns).wrote403 = false ∧
    (Initiate c3Engine [("http://a", 0)] "10.0.0.5" FwdBehavior.returns).forwarded = true := by
  decide

/-- Fresh user-built engine: WeightedRoundRobin selected, one backend, no
weights supplied. -/
def c8Config : Engine String :=
  { BlacklistIPs := [], URLs := ["http://a"],
    LoadBalancingStrategy := WeightedRoundRobin, RoundRobinWeights := [],
    currentIndex := 0, urls := [], weightedURLs := [], leastConnectionMap := none }

/-- The engine state `Setup` produces from `c8Config`: `weightedURLs` stays
empty because no weights were supplied. -/
def c8Engine : Engine String :=
  { c8Config with currentIndex := -1, urls := ["http://a"] }

/-- C8 (counterexample): an engine state with a non-empty `BackendSet` on
which selection nevertheless fails — reachable by a successful `Setup` with
WeightedRoundRobin and no weights, which leaves `WeightedBackendSet` empty,
so `getURL` takes a modulo by zero and panics. -/
theorem c8_counterexample_empty_weighted :
    Setup specParse c8Config = Res.ok c8Engine ∧
    c8Engine.urls ≠ [] ∧
    (getURL c8Engine []).1 = none := by
  decide

/-! ### Parsing-failure lemmas and C6 -/

theorem parseAll_eq_none {υ : Type} (parse : String → Option υ) :
    ∀ ss : List String, (∃ s ∈ ss, parse s = none) → parseAll parse ss = none := by
  intro ss
  induction ss with
  | nil =>
    rintro ⟨s, hs, _⟩
    cases hs
  | cons a rest ih =>
    rintro ⟨s, hs, hn⟩
    rcases List.mem_cons.mp hs with rfl | hmem
    · simp [parseAll, hn]
    · cases hpa : parse a <;>
        simp [parseAll, hpa, ih ⟨s, hmem, hn⟩]

/-- C6: if any configured address string fails URL parsing, `Setup` returns
the parse error (the `InvalidAddress` case of the spec's taxonomy) before
`e.urls` is ever assigned, so on a fresh engine the registered backend set
stays empty — parsing fails atomically and the engine is unconfigured. -/
theorem c6_invalid_address_atomic_failure {υ : Type} [DecidableEq υ]
    (parse : String → Option υ) (e : Engine υ)
    (hfresh : e.urls = [])
    (hbad : ∃ s ∈ e.URLs, parse s = none) :
    Setup parse e = Res.err { e with currentIndex := -1 } ∧
    ({ e with currentIndex := -1 } : Engine υ).urls = [] := by
  have hpa : parseAll parse e.URLs = none := parseAll_eq_none parse e.URLs hbad
  constructor
  · simp [Setup, validateURLs, hpa]
  · simpa using hfresh

/-- Fresh user-built engine: a valid first address followed by a malformed
one (leading space), mirroring the repository test case. -/
def c6Config : Engine String :=
  { BlacklistIPs := [], URLs := ["http://ok", " http://foo.com"],
    LoadBalancingStrategy := RoundRobin, RoundRobinWeights := [],
    currentIndex := 0, urls := [], weightedURLs := [], leastConnectionMap := none }

/-- Witness for C6 at a concrete engine. -/
theorem c6_invalid_address_atomic_failure_witness :
    Setup specParse c6Config = Res.err { c6Config with currentIndex := -1 } ∧
    ({ c6Config with currentIndex := -1 } : Engine String).urls = [] :=
  c6_invalid_address_atomic_failure specParse c6Config (by decide)
    ⟨" http://foo.com", by decide, by decide⟩

/-! ### Map-bookkeeping lemmas and C9 -/

theorem mapGet_mapSet {υ : Type} [DecidableEq υ] (m : List (υ × Int))
    (k k' : υ) (v : Int) :
    mapGet (mapSet m k v) k' = if k = k' then v else mapGet m k' := by
  induction m with
  | nil =>
    by_cases h : k = k' <;> simp [mapSet, mapGet, h]
  | cons kv rest ih =>
    obtain ⟨a, b⟩ := kv
    by_cases hak : a = k
    · subst hak
      by_cases hkk : a = k' <;> simp [mapSet, mapGet, hkk]
    · by_cases hak' : a = k'
      · subst hak'
        have hk : k ≠ a := fun h => hak h.symm
        simp [mapSet, mapGet, hak, hk]
      · simp [mapSet, mapGet, hak, hak', ih]

theorem mapGet_mapAdd {υ : Type} [DecidableEq υ] (m : List (υ × Int))
    (k k' : υ) (d : Int) :
    mapGet (mapAdd m k d) k' = if k = k' then mapGet m k' + d else mapGet m k' := by
  unfold mapAdd
  rw [mapGet_mapSet]
  by_cases h : k = k' <;> simp [h]

theorem mapAdd_cancel_get {υ : Type} [DecidableEq υ] (m : List (υ × Int)) (u k : υ) :
    mapGet (mapAdd (mapAdd m u 1) u (-1)) k = mapGet m k := by
  rw [mapGet_mapAdd, mapGet_mapAdd]
  by_cases h : u = k <;> simp [h]

/-- C9 (amended): when the external forwarding call returns (success, or an
error consumed by the error handler), `Initiate` increments the selected
backend's counter exactly once before forwarding and decrements it exactly
once after, so the net effect on every counter is zero; but since the code
uses no `defer`, a forwarding panic skips the decrement (see the
counterexample), so the pairing holds only on the return paths. -/
theorem c9_counter_net_zero_on_return {υ : Type} [DecidableEq υ]
    (e : Engine υ) (ord : List (υ × Int)) (remote : String)
    (m : List (υ × Int)) (u : υ)
    (hm : e.leastConnectionMap = some m)
    (hsel : (getURL e ord).1 = some u) :
    (Initiate e ord remote FwdBehavior.returns).selected = some u ∧
    (Initiate e ord remote FwdBehavior.returns).forwarded = true ∧
    (Initiate e ord remote FwdBehavior.returns).outcome =
      Res.ok { e with
        currentIndex := (getURL e ord).2
        leastConnectionMap := some (mapAdd (mapAdd m u 1) u (-1)) } ∧
    (∀ k, mapGet (mapAdd (mapAdd m u 1) u (-1)) k = mapGet m k) := by
  have hg : getURL e ord = (some u, (getURL e ord).2) := by
    rw [← hsel]
  unfold Initiate
  rw [hg]
  simp only [hm]
  refine ⟨?_, ?_, ?_, fun k => mapAdd_cancel_get m u k⟩ <;> trivial

/-- Fresh LeastConnections engine with one backend and a populated counter
map, as a successful `Setup` leaves it. -/
def c9Engine : Engine String :=
  { BlacklistIPs := [], URLs := ["http://a"],
    LoadBalancingStrategy := LeastConnections, RoundRobinWeights := [],
    currentIndex := -1, urls := ["http://a"], weightedURLs := [],
    leastConnectionMap := some [("http://a", 0)] }

/-- C9 (counterexample): when the forwarding call panics, `Initiate` has no
deferred decrement: the dispatch exits with the selected backend's counter
still incremented (1, not the initial 0), so the claimed
decrement-on-every-exit-path does not hold on the code. -/
theorem c9_counterexample_panic_leak :
    (Initiate c9Engine [("http://a", 0)] "10.0.0.5" FwdBehavior.faults).outcome =
      Res.panic { c9Engine with leastConnectionMap := some [("http://a", 1)] } ∧
    mapGet [(("http://a" : String), (1 : Int))] "http://a" = 1 ∧
    mapGet [(("http://a" : String), (0 : Int))] "http://a" = 0 := by
  decide

/-- Witness for C9's amended theorem at a concrete engine. -/
theorem c9_counter_net_zero_on_return_witness :
    (Initiate c9Engine [("http://a", 0)] "10.0.0.5" FwdBehavior.returns).selected =
      some "http://a" ∧
    (Initiate c9Engine [("http://a", 0)] "10.0.0.5" FwdBehavior.returns).forwarded = true ∧
    mapGet (mapAdd (mapAdd [("http://a", 0)] "http://a" 1) "http://a" (-1)) "http://a" =
      mapGet [(("http://a" : String), (0 : Int))] "http://a" := by
  have h := c9_counter_net_zero_on_return c9Engine [("http://a", 0)] "10.0.0.5"
    [("http://a", 0)] "http://a" (by decide) (by decide)
  exact ⟨h.1, h.2.1, h.2.2.2 "http://a"⟩

/-! ### C10: dispatch after a non-LeastConnections setup hits a nil map -/

/-- C10: `Setup` initialises `leastConnectionMap` only under
LeastConnections, while `Initiate` increments it for every strategy; so
after a successful `Setup` with any other strategy, a dispatch whose
selection succeeds writes to the nil map and panics before any forwarding —
`Initiate` is only safe under LeastConnections. -/
theorem c10_nil_map_fault {υ : Type} [DecidableEq υ]
    (parse : String → Option υ) (e e' : Engine υ)
    (ord : List (υ × Int)) (remote : String) (fwd : FwdBehavior)
    (hm : e.leastConnectionMap = none)
    (hs : e.LoadBalancingStrategy ≠ LeastConnections)
    (hset : Setup parse e = Res.ok e')
    (hsel : ((getURL e' ord).1).isSome = true) :
    e'.leastConnectionMap = none ∧
    (Initiate e' ord remote fwd).outcome.isPanic = true ∧
    (Initiate e' ord remote fwd).forwarded = false := by
  have hmap := Setup_ok_map_none parse e e' hset hm hs
  obtain ⟨u, hu⟩ := Option.isSome_iff_exists.mp hsel
  have hg : getURL e' ord = (some u, (getURL e' ord).2) := by
    rw [← hu]
  refine ⟨hmap, ?_, ?_⟩ <;>
    · unfold Initiate
      rw [hg]
      simp [hmap, Res.isPanic]

/-- Fresh user-built engine: one backend, RoundRobin. -/
def c10Config : Engine String :=
  { BlacklistIPs := [], URLs := ["http://a"],
    LoadBalancingStrategy := RoundRobin, RoundRobinWeights := [],
    currentIndex := 0, urls := [], weightedURLs := [], leastConnectionMap := none }

/-- The engine state `Setup` produces from `c10Config`: no counter map. -/
def c10Engine : Engine String :=
  { c10Config with currentIndex := -1, urls := ["http://a"] }

/-- Witness for C10 at a concrete engine. -/
theorem c10_nil_map_fault_witness :
    c10Engine.leastConnectionMap = none ∧
    (Initiate c10Engine [] "10.0.0.5" FwdBehavior.returns).outcome.isPanic = true ∧
    (Initiate c10Engine [] "10.0.0.5" FwdBehavior.returns).forwarded = false :=
  c10_nil_map_fault specParse c10Config c10Engine [] "10.0.0.5" FwdBehavior.returns
    (by decide) (by decide) (by decide) (by decide)

/-! ### LeastConnections scan lemmas and C7 -/

theorem scanLC_cases {υ : Type} :
    ∀ (entries : List (υ × Int)) (least : Int) (best : υ),
    (scanLC entries least best = best ∧ ∀ kv ∈ entries, least ≤ kv.2) ∨
    (∃ kv ∈ entries, scanLC entries least best = kv.1 ∧ kv.2 < least ∧
      ∀ kv2 ∈ entries, kv.2 ≤ kv2.2) := by
  intro entries
  induction entries with
  | nil =>
    intro least best
    left
    exact ⟨rfl, by simp⟩
  | cons hd tl ih =>
    intro least best
    obtain ⟨k, v⟩ := hd
    by_cases h : v < least
    · rcases ih v k with ⟨heq, hall⟩ | ⟨kv, hmem, heq, hlt, hmin⟩
      · right
        refine ⟨(k, v), List.mem_cons_self _ _, ?_, h, ?_⟩
        · simp [scanLC, h, heq]
        · intro kv2 hkv2
          rcases List.mem_cons.mp hkv2 with rfl | hm
          · exact le_refl v
          · exact hall kv2 hm
      · right
        refine ⟨kv, List.mem_cons_of_mem _ hmem, ?_, lt_trans hlt h, ?_⟩
        · simp [scanLC, h, heq]
        · intro kv2 hkv2
          rcases List.mem_cons.mp hkv2 with rfl | hm
          · exact le_of_lt hlt
          · exact hmin kv2 hm
    · rcases ih least best with ⟨heq, hall⟩ | ⟨kv, hmem, heq, hlt, hmin⟩
      · left
        refine ⟨by simp [scanLC, h, heq], ?_⟩
        intro kv2 hkv2
        rcases List.mem_cons.mp hkv2 with rfl | hm
        · exact le_of_not_lt h
        · exact hall kv2 hm
      · right
        refine ⟨kv, List.mem_cons_of_mem _ hmem, ?_, hlt, ?_⟩
        · simp [scanLC, h, heq]
        · intro kv2 hkv2
          rcases List.mem_cons.mp hkv2 with rfl | hm
          · exact le_of_lt (lt_of_lt_of_le hlt (le_of_not_lt h))
          · exact hmin kv2 hm

/-- C7 (amended): under LeastConnections, for every counter state whose
counters all lie below the scan's sentinel literal 9999999999 and every
iteration order of the (unordered Go) map, selection returns a backend whose
counter equals the minimum counter value.  Which tied backend is returned
depends on the map iteration order, which Go leaves unspecified — it is not
the earliest in configuration order (see the counterexample). -/
theorem c7_leastconnections_min_selection {υ : Type} (e : Engine υ)
    (entries m : List (υ × Int)) (u0 : υ) (us : List υ)
    (hs : e.LoadBalancingStrategy = LeastConnections)
    (hurls : e.urls = u0 :: us)
    (hm : e.leastConnectionMap = some m)
    (hperm : entries.Perm m)
    (hne : entries ≠ [])
    (hbound : ∀ kv ∈ entries, kv.2 < 9999999999) :
    ∃ kv ∈ entries, (getURL e entries).1 = some kv.1 ∧
      ∀ kv2 ∈ entries, kv.2 ≤ kv2.2 := by
  have hg : (getURL e entries).1 = some (scanLC entries 9999999999 u0) := by
    simp [getURL, hs, LeastConnections, RoundRobin, WeightedRoundRobin, hurls]
  rcases scanLC_cases entries 9999999999 u0 with ⟨heq, hall⟩ | ⟨kv, hmem, heq, hlt, hmin⟩
  · obtain ⟨kv0, hkv0⟩ := List.exists_mem_of_ne_nil entries hne
    exact absurd (hall kv0 hkv0) (not_le.mpr (hbound kv0 hkv0))
  · exact ⟨kv, hmem, by rw [hg, heq], hmin⟩

/-- LeastConnections engine with two backends, both counters 0, as
`populateLeastConnectionsMap` builds the map. -/
def c7Engine : Engine Nat :=
  { BlacklistIPs := [], URLs := [], LoadBalancingStrategy := LeastConnections,
    RoundRobinWeights := [], currentIndex := -1, urls := [0, 1],
    weightedURLs := [], leastConnectionMap := some [(0, 0), (1, 0)] }

/-- C7 (counterexample): the iteration order `[(1,0),(0,0)]` is a
permutation of the stored map; both counters are tied at 0; the scan keeps
the first minimum it meets in iteration order and returns backend 1, not the
configuration-order-earliest backend 0 — the tie-break is
iteration-order-dependent, hence not deterministic by configuration order. -/
theorem c7_counterexample_tiebreak_order :
    List.Perm [((1 : Nat), (0 : Int)), (0, 0)] [(0, 0), (1, 0)] ∧
    c7Engine.leastConnectionMap = some [(0, 0), (1, 0)] ∧
    (getURL c7Engine [(1, 0), (0, 0)]).1 = some 1 ∧
    (getURL c7Engine [(1, 0), (0, 0)]).1 ≠ some 0 := by
  decide

/-- Witness for C7's amended theorem at a concrete engine. -/
theorem c7_leastconnections_min_selection_witness :
    ∃ kv ∈ [((1 : Nat), (0 : Int)), (0, 0)],
      (getURL c7Engine [(1, 0), (0, 0)]).1 = some kv.1 ∧
      ∀ kv2 ∈ [((1 : Nat), (0 : Int)), (0, 0)], kv.2 ≤ kv2.2 :=
  c7_leastconnections_min_selection c7Engine [(1, 0), (0, 0)] [(0, 0), (1, 0)] 0 [1]
    (by decide) (by decide) (by decide) (by decide) (by decide) (by decide)

/-! ### C8: totality of selection -/

/-- C8 (amended): selection never fails given a non-empty `BackendSet`,
provided additionally that under WeightedRoundRobin the expanded
`WeightedBackendSet` is non-empty (otherwise modulo by zero, see the
counterexample) and that under the two cursor-driven strategies the cursor
sits in the int64 range `[-1, 2^63 - 2]` reached from a fresh setup (outside
it the increment or the truncated modulo produces a negative index). -/
theorem c8_selection_total {υ : Type} (e : Engine υ) (ord : List (υ × Int))
    (hne : e.urls ≠ [])
    (hwrr : e.LoadBalancingStrategy = WeightedRoundRobin → e.weightedURLs ≠ [])
    (hcur : (e.LoadBalancingStrategy = RoundRobin ∨
        e.LoadBalancingStrategy = WeightedRoundRobin) →
      -1 ≤ e.currentIndex ∧ e.currentIndex < 9223372036854775807) :
    ((getURL e ord).1).isSome = true := by
  by_cases h1 : e.LoadBalancingStrategy = RoundRobin
  · obtain ⟨hlo, hhi⟩ := hcur (Or.inl h1)
    rw [getURL_fst_rr e ord h1]
    unfold addInt64
    rw [wrap64_eq_self (by omega) (by omega)]
    have hrep : e.currentIndex + 1 = (((e.currentIndex + 1).toNat : Nat) : Int) := by
      omega
    rw [hrep, goModIndex_natCast _ _ hne]
    have : (e.currentIndex + 1).toNat % e.urls.length < e.urls.length :=
      Nat.mod_lt _ (List.length_pos.mpr hne)
    simp [List.getElem?_eq_getElem this]
  · by_cases h2 : e.LoadBalancingStrategy = WeightedRoundRobin
    · obtain ⟨hlo, hhi⟩ := hcur (Or.inr h2)
      have hwne := hwrr h2
      rw [getURL_fst_wrr e ord h2]
      unfold addInt64
      rw [wrap64_eq_self (by omega) (by omega)]
      have hrep : e.currentIndex + 1 = (((e.currentIndex + 1).toNat : Nat) : Int) := by
        omega
      rw [hrep, goModIndex_natCast _ _ hwne]
      have : (e.currentIndex + 1).toNat % e.weightedURLs.length < e.weightedURLs.length :=
        Nat.mod_lt _ (List.length_pos.mpr hwne)
      simp [List.getElem?_eq_getElem this]
    · obtain ⟨u, us, hurls⟩ := List.exists_cons_of_ne_nil hne
      by_cases h3 : e.LoadBalancingStrategy = LeastConnections
      · simp [getURL, h1, h2, h3, hurls, RoundRobin, WeightedRoundRobin,
          LeastConnections]
      · simp [getURL, h1, h2, h3, hurls]

/-- Witness for C8's amended theorem: RoundRobin at the fresh cursor. -/
theorem c8_selection_total_witness :
    c1Engine.urls ≠ [] ∧ ((getURL c1Engine []).1).isSome = true :=
  ⟨by decide, c8_selection_total c1Engine [] (by decide) (by decide) (by decide)⟩

/-! ### Weighted expansion lemmas and C2 -/

/-- Expansion as the spec words it (§3 `WeightedBackendSet`): backend `i`
replicated `weight[i]` times, blocks contiguous, in configuration order.
This is the spec-side reference definition the code expansion loop is
compared against. -/
def weightedSpecExpansion {υ : Type} (urls : List υ) (ws : List Int) : List υ :=
  (urls.zip ws).flatMap (fun p => List.replicate p.2.toNat p.1)

theorem expandWeightedFrom_eq {υ : Type} (ws : List Int) :
    ∀ (us : List υ) (idx : Nat), idx + us.length ≤ ws.length →
    expandWeightedFrom ws us idx =
      some ((us.zip (ws.drop idx)).flatMap (fun p => List.replicate p.2.toNat p.1)) := by
  intro us
  induction us with
  | nil =>
    intro idx h
    simp [expandWeightedFrom]
  | cons u rest ih =>
    intro idx h
    have hidx : idx < ws.length := by
      simp only [List.length_cons] at h
      omega
    have hg : ws[idx]? = some ws[idx] := List.getElem?_eq_getElem hidx
    have hdrop : ws.drop idx = ws[idx] :: ws.drop (idx + 1) :=
      List.drop_eq_getElem_cons hidx
    have hrec := ih (idx + 1) (by simp only [List.length_cons] at h; omega)
    simp only [expandWeightedFrom, hg, hrec, hdrop, List.zip_cons_cons,
      List.flatMap_cons]

theorem count_weightedSpecExpansion_notmem {υ : Type} [DecidableEq υ] :
    ∀ (urls : List υ) (ws : List Int) (u : υ), u ∉ urls →
      (weightedSpecExpansion urls ws).count u = 0 := by
  intro urls
  induction urls with
  | nil =>
    intro ws u h
    simp [weightedSpecExpansion]
  | cons a rest ih =>
    intro ws u h
    cases ws with
    | nil => simp [weightedSpecExpansion]
    | cons w wrest =>
      have hne : a ≠ u := by
        intro heq
        exact h (by simp [heq])
      have hnm : u ∉ rest := fun hmm => h (List.mem_cons_of_mem _ hmm)
      have ih2 := ih wrest u hnm
      simp only [weightedSpecExpansion] at ih2
      simp [weightedSpecExpansion, List.zip_cons_cons, List.flatMap_cons,
        List.count_append, List.count_replicate, hne, ih2]

theorem count_weightedSpecExpansion {υ : Type} [DecidableEq υ] :
    ∀ (urls : List υ) (ws : List Int) (i : Nat) (hi : i < urls.length),
      i < ws.length → urls.Nodup →
      (weightedSpecExpansion urls ws).count (urls.get ⟨i, hi⟩) =
        (ws[i]?.getD 0).toNat := by
  intro urls
  induction urls with
  | nil =>
    intro ws i hi
    simp at hi
  | cons a rest ih =>
    intro ws i hi hi2 hnd
    cases ws with
    | nil => simp at hi2
    | cons w wrest =>
      have hna : a ∉ rest := (List.nodup_cons.mp hnd).1
      have hnd2 : rest.Nodup := (List.nodup_cons.mp hnd).2
      cases i with
      | zero =>
        have hnm2 := count_weightedSpecExpansion_notmem rest wrest a hna
        simp only [weightedSpecExpansion] at hnm2
        simp [weightedSpecExpansion, List.zip_cons_cons, List.flatMap_cons,
          List.count_append, List.count_replicate_self, hnm2]
      | succ j =>
        have hj : j < rest.length := by simpa using hi
        have hj2 : j < wrest.length := by simpa using hi2
        have hmem : rest.get ⟨j, hj⟩ ∈ rest := List.get_mem rest j hj
        have hne : a ≠ rest.get ⟨j, hj⟩ := by
          intro heq
          exact hna (heq ▸ hmem)
        simp only [List.get_eq_getElem] at hne
        have hrec := ih wrest j hj hj2 hnd2
        simp only [weightedSpecExpansion] at hrec
        simp [weightedSpecExpansion, List.zip_cons_cons, List.flatMap_cons,
          List.count_append, List.count_replicate, hne] at hrec ⊢
        exact hrec

theorem weightedSpecExpansion_length {υ : Type} :
    ∀ (urls : List υ) (ws : List Int), ws.length = urls.length →
      (weightedSpecExpansion urls ws).length = (ws.map Int.toNat).sum := by
  intro urls
  induction urls with
  | nil =>
    intro ws h
    simp at h
    simp [weightedSpecExpansion, h]
  | cons u rest ih =>
    intro ws h
    cases ws with
    | nil => simp at h
    | cons w wrest =>
      have hrec := ih wrest (by simpa using h)
      simp [weightedSpecExpansion, List.zip_cons_cons, List.flatMap_cons] at hrec ⊢
      omega

theorem count_some_map {υ : Type} [DecidableEq υ] (l : List υ) (x : υ) :
    List.count (some x) (l.map some) = List.count x l := by
  induction l with
  | nil => simp
  | cons a rest ih =>
    by_cases h : a = x <;> simp [List.count_cons, h, ih]

theorem selList_wrr {υ : Type} (e : Engine υ)
    (hs : e.LoadBalancingStrategy = WeightedRoundRobin)
    (hc : e.currentIndex = -1) (hne : e.weightedURLs ≠ [])
    (hS : e.weightedURLs.length ≤ 9223372036854775808) :
    selList e [] e.weightedURLs.length = e.weightedURLs.map some := by
  apply List.ext_getElem?
  intro j
  by_cases hj : j < e.weightedURLs.length
  · have hsel := selectionAt_wrr e [] hs hc hne (j + 1) (by omega) (by omega)
    simp only [selList, List.getElem?_map, List.getElem?_range hj,
      List.getElem?_eq_getElem hj]
    simp [hsel, Nat.mod_eq_of_lt hj, List.getElem?_eq_getElem hj]
  · have h1 : (selList e [] e.weightedURLs.length)[j]? = none := by
      apply List.getElem?_eq_none
      simpa [selList] using le_of_not_lt hj
    have h2 : (e.weightedURLs.map some)[j]? = none := by
      apply List.getElem?_eq_none
      simpa using le_of_not_lt hj
    rw [h1, h2]

/-- C2: for a registration with `Nodup` backends (Go pointers are pairwise
distinct) and a parallel list of positive weights, `Setup` succeeds and
stores exactly the spec expansion — backend `i` appearing `weight[i]` times,
blocks contiguous in configuration order; the expansion has length
`sum(weights)` and, over one full cycle of that many selections from the
fresh engine, the selection sequence is exactly the expansion, so backend
`i` is selected exactly `weight[i]` times.  (The cycle-length bound `2^63`
reflects that a Go slice can not be longer than the maximum `int`.) -/
theorem c2_weighted_expansion_and_cycle {υ : Type} [DecidableEq υ]
    (parse : String → Option υ) (e : Engine υ) (urls : List υ) (ws : List Int)
    (hparse : parseAll parse e.URLs = some urls)
    (hws : e.RoundRobinWeights = ws)
    (hnd : urls.Nodup) (hne : urls ≠ [])
    (hlen : ws.length = urls.length)
    (hpos : ∀ w ∈ ws, 1 ≤ w)
    (hstrat : e.LoadBalancingStrategy = WeightedRoundRobin)
    (hS : (weightedSpecExpansion urls ws).length ≤ 9223372036854775808) :
    Setup parse e = Res.ok { e with
      currentIndex := -1
      urls := urls
      weightedURLs := weightedSpecExpansion urls ws } ∧
    (∀ i (hi : i < urls.length), i < ws.length →
      (weightedSpecExpansion urls ws).count (urls.get ⟨i, hi⟩) =
        (ws[i]?.getD 0).toNat) ∧
    (weightedSpecExpansion urls ws).length = (ws.map Int.toNat).sum ∧
    selList { e with
      currentIndex := -1
      urls := urls
      weightedURLs := weightedSpecExpansion urls ws } []
      (weightedSpecExpansion urls ws).length =
      (weightedSpecExpansion urls ws).map some ∧
    (∀ i (hi : i < urls.length), i < ws.length →
      (selList { e with
        currentIndex := -1
        urls := urls
        weightedURLs := weightedSpecExpansion urls ws } []
        (weightedSpecExpansion urls ws).length).count (some (urls.get ⟨i, hi⟩)) =
        (ws[i]?.getD 0).toNat) := by
  have hwlen : 0 < ws.length := by
    rw [hlen]
    exact List.length_pos.mpr hne
  have hexp : expandWeightedFrom ws urls 0 = some (weightedSpecExpansion urls ws) := by
    have h0 := expandWeightedFrom_eq ws urls 0 (by omega)
    simpa [weightedSpecExpansion] using h0
  have hlength := weightedSpecExpansion_length urls ws hlen
  have hwne : weightedSpecExpansion urls ws ≠ [] := by
    intro hnil
    rw [hnil] at hlength
    cases ws with
    | nil => simp at hwlen
    | cons w wrest =>
      have hw1 : 1 ≤ w := hpos w (by simp)
      simp [List.map_cons, List.sum_cons] at hlength
      omega
  have hsetup : Setup parse e = Res.ok { e with
      currentIndex := -1
      urls := urls
      weightedURLs := weightedSpecExpansion urls ws } := by
    simp [Setup, validateURLs, hparse, hws, hwlen, hexp, hstrat,
      WeightedRoundRobin, LeastConnections]
  have hsl : selList { e with
      currentIndex := -1
      urls := urls
      weightedURLs := weightedSpecExpansion urls ws } []
      (weightedSpecExpansion urls ws).length =
      (weightedSpecExpansion urls ws).map some :=
    selList_wrr _ (by simpa using hstrat) rfl hwne hS
  refine ⟨hsetup, ?_, hlength, hsl, ?_⟩
  · intro i hi hi2
    exact count_weightedSpecExpansion urls ws i hi hi2 hnd
  · intro i hi hi2
    rw [hsl, count_some_map (weightedSpecExpansion urls ws) (urls.get ⟨i, hi⟩)]
    exact count_weightedSpecExpansion urls ws i hi hi2 hnd

/-- Fresh user-built engine: two backends with weights 2 and 1. -/
def c2Config : Engine String :=
  { BlacklistIPs := [], URLs := ["http://a", "http://b"],
    LoadBalancingStrategy := WeightedRoundRobin, RoundRobinWeights := [2, 1],
    currentIndex := 0, urls := [], weightedURLs := [], leastConnectionMap := none }

/-- Witness for C2 at a concrete engine: weights `[2,1]` give the expansion
`[a,a,b]`, backend 0 is counted twice, and the first cycle of 3 selections
is exactly the expansion. -/
theorem c2_weighted_expansion_and_cycle_witness :
    Setup specParse c2Config = Res.ok { c2Config with
      currentIndex := -1
      urls := ["http://a", "http://b"]
      weightedURLs := weightedSpecExpansion ["http://a", "http://b"] [2, 1] } ∧
    (weightedSpecExpansion ["http://a", "http://b"] [2, 1]).count
      (["http://a", "http://b"].get ⟨0, by decide⟩) =
      ((([2, 1] : List Int))[0]?.getD 0).toNat ∧
    (weightedSpecExpansion ["http://a", "http://b"] [2, 1]).length =
      (([2, 1] : List Int).map Int.toNat).sum ∧
    selList { c2Config with
      currentIndex := -1
      urls := ["http://a", "http://b"]
      weightedURLs := weightedSpecExpansion ["http://a", "http://b"] [2, 1] } []
      (weightedSpecExpansion ["http://a", "http://b"] [2, 1]).length =
      (weightedSpecExpansion ["http://a", "http://b"] [2, 1]).map some := by
  have h := c2_weighted_expansion_and_cycle specParse c2Config ["http://a", "http://b"]
    [2, 1] (by decide) rfl (by decide) (by decide) (by decide) (by decide) rfl (by decide)
  exact ⟨h.1, h.2.1 0 (by decide) (by decide), h.2.2.1, h.2.2.2.1⟩

end FlashX
